import Mathlib

/-
Shallow embedding of the core of jtb324/go-vcf-parser, translated from
src/cmd/pull_variants.go.  Pure Go helpers become Lean functions; operations
that can panic at runtime (out-of-range indexing, nil dereference, string
slicing past the end) return Option, with `none` standing for the panic.
Go's `int` is modelled as `Nat` where every value that can flow in is parsed
from an unsigned digit string.  Go maps are modelled as association lists with
first-match lookup; writes replace an existing key in place or append a fresh
one, which reproduces Go map lookup/update semantics for the accesses the
program performs.
-/

/-- Characters matched by the Go regexp [:|-] used for region and position
strings (inside a character class the bar is a literal). -/
def isSep (c : Char) : Bool := c = ':' || c = '|' || c = '-'

/-- Model of Go regexp.Split / strings.Split with a one-character separator
class: split at every matching character, keeping empty pieces.  The result is
always nonempty, as in Go. -/
def splitP (p : Char → Bool) : List Char → List (List Char)
  | [] => [[]]
  | c :: r =>
    if p c then [] :: splitP p r
    else
      match splitP p r with
      | [] => [[c]]
      | g :: gs => (c :: g) :: gs

/-- Split a string at every character matched by p (Go regexp.Split /
strings.Split for one-character separators). -/
def gosplit (p : Char → Bool) (s : String) : List String :=
  (splitP p s.data).map String.mk

/-- Does the second list start with the first one (helper for the
strings.Contains model). -/
def startsL : List Char → List Char → Bool
  | [], _ => true
  | _ :: _, [] => false
  | c :: pr, d :: sr => c = d && startsL pr sr

/-- Substring search over character lists. -/
def containsL (pat : List Char) : List Char → Bool
  | [] => pat.isEmpty
  | d :: sr => startsL pat (d :: sr) || containsL pat sr

/-- Model of Go strings.Contains. -/
def gocontains (s pat : String) : Bool := containsL pat.data s.data

/-- Model of Go unicode.IsSpace on the characters that can occur in this
program's inputs. -/
def isSpc (c : Char) : Bool :=
  c = ' ' || c = '\t' || c = '\n' || c = '\r' || c = '\x0b' || c = '\x0c'

/-- Model of Go strings.TrimSpace. -/
def trimSpace (s : String) : String :=
  String.mk (((s.data.dropWhile isSpc).reverse.dropWhile isSpc).reverse)

/-- Numeric value of a digit string. -/
def digitsToNat (l : List Char) : Nat := l.foldl (fun a c => 10 * a + (c.toNat - 48)) 0

/-- Model of Go strconv.Atoi on the strings that reach it in this program: a
piece produced by splitting on [:|-] can never contain a minus sign, so only
an optional leading plus and digits can parse; everything else is an error
(`none`).  Go returns 0 alongside the error, which the callers here read back
via `Option.getD 0`. -/
def atoi (s : String) : Option Nat :=
  let l := match s.data with
    | '+' :: r => r
    | l => l
  if !l.isEmpty && l.all Char.isDigit then some (digitsToNat l) else none

/-- Go struct Region (pull_variants.go:446-450).  The Go field `end` is named
`stop` because `end` is a Lean keyword; both bounds are parsed from unsigned
digit strings, hence Nat. -/
structure Region where
  chrom : String
  start : Nat
  stop : Nat
deriving DecidableEq, Repr

/-- Model of check_region (pull_variants.go:266-304).  Returns
(in_region, err) where err models a non-nil []error return: the first
component of the pair is the retention verdict, the second is true when at
least one Atoi conversion error was appended. -/
def check_region (anno_pos : String) (start stop : Nat) : Bool × Bool :=
  let split_pos := gosplit isSep anno_pos
  let start_pos_str :=
    if split_pos.length = 1 then split_pos.getD 0 ""
    else split_pos.getD 1 ""
  let end_pos_str :=
    if split_pos.length ≤ 2 then "" else split_pos.getD 2 ""
  let start_pos := (atoi start_pos_str).getD 0
  let first_conv_err := (atoi start_pos_str).isNone
  let end_pos := (atoi end_pos_str).getD 0
  let second_conv_err := (!(end_pos_str == "")) && (atoi end_pos_str).isNone
  ((decide (start ≤ start_pos) && decide (start_pos ≤ stop))
     || (!(end_pos == 0) && (decide (start ≤ end_pos) && decide (end_pos ≤ stop))),
   first_conv_err || second_conv_err)

/-- Model of parse_region (pull_variants.go:452-481).  `none` models the Go
runtime panic: when the split has exactly two pieces (form chrom:pos) the code
unconditionally indexes region_split[2], which is out of range.  Otherwise the
result carries the Region and whether the accumulated []error was non-nil; on
the length-1 branch Go returns the zero-value Region together with an error. -/
def parse_region (region_str : String) : Option (Region × Bool) :=
  let region_split := gosplit isSep region_str
  if region_split.length = 1 then some (⟨"", 0, 0⟩, true)
  else
    match region_split[2]? with
    | none => none
    | some end_str =>
      let start_str := region_split.getD 1 ""
      let start_int := (atoi start_str).getD 0
      let end_int := (atoi end_str).getD 0
      let errs := (atoi start_str).isNone || (atoi end_str).isNone
          || decide (end_int ≤ start_int)
      some (⟨region_split.getD 0 "", start_int, end_int⟩, errs)

theorem atoi_nil : atoi "" = none := rfl

theorem atoi_ne_nil {s : String} {p : Nat} (h : atoi s = some p) : s ≠ "" := by
  intro he
  rw [he] at h
  simp [atoi] at h

/-- C1: the region-overlap test of check_region.  A row whose position field
is a single point p (either a bare digit string, giving a one-piece split, or
chrom:pos, giving a two-piece split) is retained iff
region.start ≤ p ≤ region.end, with no conversion error; a row whose position
field encodes an interval chrom:p-q (three-piece split) with p ≤ q is retained
iff one of the bounds p, q falls inside [region.start, region.end].  In
particular, for region chr1:100-200 and row positions 50, 150, 250, only the
row at 150 is retained. -/
theorem C1_region_overlap :
    (∀ (pos ps : String) (p start stop : Nat),
        gosplit isSep pos = [ps] → atoi ps = some p →
        check_region pos start stop = (decide (start ≤ p ∧ p ≤ stop), false))
  ∧ (∀ (pos c ps : String) (p start stop : Nat),
        gosplit isSep pos = [c, ps] → atoi ps = some p →
        check_region pos start stop = (decide (start ≤ p ∧ p ≤ stop), false))
  ∧ (∀ (pos c ps qs : String) (p q start stop : Nat),
        gosplit isSep pos = [c, ps, qs] → atoi ps = some p → atoi qs = some q →
        p ≤ q →
        ((check_region pos start stop).1 = true ↔
          ((start ≤ p ∧ p ≤ stop) ∨ (start ≤ q ∧ q ≤ stop))))
  ∧ ((check_region "50" 100 200).1 = false
      ∧ (check_region "150" 100 200).1 = true
      ∧ (check_region "250" 100 200).1 = false) := by
  refine ⟨?_, ?_, ?_, by decide⟩
  · intro pos ps p start stop hsplit hp
    unfold check_region
    rw [hsplit]
    simp [hp, atoi_nil]
  · intro pos c ps p start stop hsplit hp
    unfold check_region
    rw [hsplit]
    simp [hp, atoi_nil]
  · intro pos c ps qs p q start stop hsplit hp hq hpq
    unfold check_region
    rw [hsplit]
    simp [hp, hq]
    constructor
    · rintro (h | h) <;> omega
    · rintro (h | h)
      · omega
      · by_cases hq0 : q = 0
        · left
          omega
        · right
          simp [hq0]
          omega

/-- Witness for C1: concrete instantiations of each hypothetical part.  The
one-piece, two-piece and three-piece forms are exercised at region
[100, 200]. -/
theorem C1_region_overlap_witness :
    check_region "150" 100 200 = (true, false)
  ∧ check_region "chr1:150" 100 200 = (true, false)
  ∧ ((check_region "chr1:50-150" 100 200).1 = true ↔
      ((100 ≤ 50 ∧ 50 ≤ 200) ∨ (100 ≤ 150 ∧ 150 ≤ 200))) := by
  refine ⟨?_, ?_, ?_⟩
  · have h := C1_region_overlap.1 "150" "150" 150 100 200 (by decide) (by decide)
    simpa using h
  · have h := C1_region_overlap.2.1 "chr1:150" "chr1" "150" 150 100 200
      (by decide) (by decide)
    simpa using h
  · exact C1_region_overlap.2.2.1 "chr1:50-150" "chr1" "50" "150" 50 150 100 200
      (by decide) (by decide) (by decide) (by decide)

/-- Go map lookup on an association list (first match). -/
def lookupA {α : Type} (l : List (String × α)) (k : String) : Option α :=
  (l.find? (fun p => p.1 == k)).map Prod.snd

/-- Go map assignment m[k] = v: replace the value at an existing key, or add
the key at the end. -/
def setA {α : Type} : List (String × α) → String → α → List (String × α)
  | [], k, v => [(k, v)]
  | p :: l, k, v => if p.1 == k then (p.1, v) :: l else p :: setA l k v

/-- The tab-splitting every scan loop applies to a line
(strings.Split(strings.TrimSpace(line), "\t")). -/
def splitRow (l : String) : List String := gosplit (fun c => c = '\t') (trimSpace l)

/-- Model of load_column_mappings (pull_variants.go:255-264): column name to
column index.  The reversal makes the first-match lookup return the LAST index
declared for a duplicated column name, as the Go map overwrite does. -/
def load_column_mappings (line : String) : List (String × Nat) :=
  ((gosplit (fun c => c = '\t') (trimSpace line)).enum.map (fun p => (p.2, p.1))).reverse

/-- Go type VariantAnnotations = map[string]*strings.Builder, modelled as the
accumulated contents of each builder. -/
abbrev VariantAnnotations := List (String × String)

/-- The fresh-record branch of read_annotations (pull_variants.go:373-382):
for each requested column present in the current column mapping, start a
builder holding that column's value for this row.  `none` models the Go panic
when the mapped index is out of range of the split row.  The fold follows the
Go loop over cols_to_grab. -/
def create_step (column_mappings : List (String × Nat))
    (split_line : List String) (va : VariantAnnotations) (col : String) :
    Option VariantAnnotations :=
  match lookupA column_mappings col with
  | none => some va
  | some value =>
    match split_line[value]? with
    | none => none
    | some v => some (va ++ [(col, v)])

def create_row_cols (cols_to_grab : List String)
    (column_mappings : List (String × Nat)) (split_line : List String) :
    Option VariantAnnotations :=
  cols_to_grab.foldlM (create_step column_mappings split_line) []

/-- The existing-record branch of read_annotations (pull_variants.go:364-370):
for each requested column present in the current column mapping, append ";"
and the row's value to that column's builder.  An out-of-range index into the
split row is a panic, and so is dereferencing a builder the record does not
contain (a nil *strings.Builder); both are `none`. -/
def append_step (column_mappings : List (String × Nat))
    (split_line : List String) (va : VariantAnnotations) (col : String) :
    Option VariantAnnotations :=
  match lookupA column_mappings col with
  | none => some va
  | some value =>
    match split_line[value]? with
    | none => none
    | some v =>
      match lookupA va col with
      | none => none
      | some old => some (setA va col (old ++ ";" ++ v))

def append_row_cols (cols_to_grab : List String)
    (column_mappings : List (String × Nat)) (split_line : List String)
    (variant_annos : VariantAnnotations) : Option VariantAnnotations :=
  cols_to_grab.foldlM (append_step column_mappings split_line) variant_annos

/-- Scan state of read_annotations: the current column mapping and the
annotation store built so far. -/
structure AnnoScanState where
  column_mappings : List (String × Nat)
  annos : List (String × VariantAnnotations)
deriving DecidableEq, Repr

/-- One iteration of the read_annotations scan loop (pull_variants.go:338-385).
Lines containing "##" are skipped; lines containing "#" (re)declare the column
mapping; every other line is a data row.  A data row is skipped only when the
region check is BOTH negative and error-free: on a conversion error the code
prints a message announcing the row will be skipped, but that branch has no
continue statement, so the row falls through and is still processed.  `none`
models a Go panic (row shorter than two fields, mapped index out of range, or
nil-builder dereference). -/
def process_anno_line (cols_to_grab : List String) (region : Region)
    (st : AnnoScanState) (cur_line : String) : Option AnnoScanState :=
  if gocontains cur_line "##" then some st
  else if gocontains cur_line "#" then
    some { st with column_mappings := load_column_mappings cur_line }
  else
    let split_line := splitRow cur_line
    match split_line[1]? with
    | none => none
    | some pos =>
      let res := check_region pos region.start region.stop
      if !res.1 && !res.2 then some st
      else
        let key := split_line.headD ""
        match lookupA st.annos key with
        | some variant_annos =>
          (append_row_cols cols_to_grab st.column_mappings split_line
              variant_annos).map
            (fun va => { st with annos := setA st.annos key va })
        | none =>
          (create_row_cols cols_to_grab st.column_mappings split_line).map
            (fun va => { st with annos := setA st.annos key va })

/-- Model of read_annotations (pull_variants.go:306-400) over the decompressed
lines of the annotation source.  The outer Option models a Go panic during the
scan; the inner Option models the fatal "no annotations loaded" error that the
caller terminates on. -/
def read_annotations (cols_to_grab : List String) (region : Region)
    (lines : List String) :
    Option (Option (List (String × VariantAnnotations))) :=
  (lines.foldlM (process_anno_line cols_to_grab region) ⟨[], []⟩).map
    (fun st => if st.annos.isEmpty then none else some st.annos)

/-- C6 (code_bug evidence): a data row whose position field does not parse as
an integer is NOT skipped.  With region chr1:100-200, requested column X, a
header declaring ID/POS/X and the single data row "rs1 abc v", check_region
reports a conversion error on position "abc"; the scan prints a message
announcing the row will be skipped, but the error branch lacks a continue, so
the row falls through and is stored: the finished store maps rs1 to X = "v"
instead of containing nothing. -/
theorem C6_unparsable_position_row_is_stored :
    read_annotations ["X"] ⟨"chr1", 100, 200⟩ ["#ID\tPOS\tX", "rs1\tabc\tv"]
        = some (some [("rs1", [("X", "v")])])
  ∧ check_region "abc" 100 200 = (false, true) := by
  constructor <;> rfl

/-- Counterexample to C7: a requested column that does not occur in the
annotation source's column header is NOT a key of the stored record.  With
requested columns ["X"] and a header declaring only ID/POS/gene, the stored
record for rs1 has the empty key set rather than {"X"}. -/
theorem C7_counterexample_missing_requested_column :
    read_annotations ["X"] ⟨"chr1", 100, 200⟩ ["#ID\tPOS\tgene", "rs1\t150\tv"]
      = some (some [("rs1", [])]) := by rfl

/-- C8: the RegionSpec parser does NOT accept the single-point form chrom:pos.
parse_region always indexes the third piece of the split, so a two-piece
split (a single point such as "chr1:5") is an index-out-of-range panic, while
the documented chrom:start-end form parses normally.  This contradicts the
spec's requirement that a single point be tolerated as start == end. -/
theorem C8_parse_region_single_point_panics :
    parse_region "chr1:5" = none
  ∧ parse_region "chr1:100-200" = some (⟨"chr1", 100, 200⟩, false) := by
  constructor <;> rfl

/- Association-list lemmas capturing Go map lookup/update semantics. -/

def keysA {α : Type} (l : List (String × α)) : List String := l.map Prod.fst

theorem lookupA_cons {α : Type} (p : String × α) (l : List (String × α))
    (k : String) :
    lookupA (p :: l) k = if p.1 == k then some p.2 else lookupA l k := by
  cases h : p.1 == k
  · simp [lookupA, List.find?_cons_of_neg, h]
  · simp [lookupA, List.find?_cons_of_pos, h]

theorem lookupA_isSome_iff_mem {α : Type} (l : List (String × α)) (k : String) :
    (lookupA l k).isSome = true ↔ k ∈ keysA l := by
  induction l with
  | nil => simp [lookupA, keysA]
  | cons p l ih =>
    rw [lookupA_cons]
    by_cases h : (p.1 == k) = true
    · rw [if_pos h]
      have hk : p.1 = k := by simpa using h
      simp [keysA, hk]
    · rw [if_neg h, ih]
      show k ∈ keysA l ↔ k ∈ p.1 :: keysA l
      rw [List.mem_cons]
      refine ⟨Or.inr, fun hm => hm.elim (fun he => absurd (by simp [he]) h) id⟩

theorem lookupA_setA_self {α : Type} (l : List (String × α)) (k : String)
    (v : α) : lookupA (setA l k v) k = some v := by
  induction l with
  | nil => simp [setA, lookupA_cons]
  | cons p l ih =>
    simp only [setA]
    by_cases hp : (p.1 == k) = true
    · rw [if_pos hp, lookupA_cons, if_pos hp]
    · rw [if_neg hp, lookupA_cons, if_neg hp]
      exact ih

theorem lookupA_setA_ne {α : Type} (l : List (String × α)) (k : String)
    (v : α) (k' : String) (hne : k' ≠ k) :
    lookupA (setA l k v) k' = lookupA l k' := by
  induction l with
  | nil =>
    have hb : (k == k') = false := by
      simp
      exact fun he => hne he.symm
    simp [setA, lookupA_cons, hb, lookupA]
  | cons p l ih =>
    simp only [setA]
    by_cases hp : (p.1 == k) = true
    · rw [if_pos hp, lookupA_cons, lookupA_cons]
      have hp1 : p.1 = k := by simpa using hp
      have hb : (p.1 == k') = false := by
        simp [hp1]
        exact fun he => hne he.symm
      rw [hb]
      simp
    · rw [if_neg hp, lookupA_cons, lookupA_cons]
      by_cases hq : (p.1 == k') = true
      · rw [if_pos hq, if_pos hq]
      · rw [if_neg hq, if_neg hq]
        exact ih

theorem keysA_setA_present {α : Type} (l : List (String × α)) (k : String)
    (v : α) (h : (lookupA l k).isSome = true) :
    keysA (setA l k v) = keysA l := by
  induction l with
  | nil => simp [lookupA] at h
  | cons p l ih =>
    rw [lookupA_cons] at h
    simp only [setA]
    by_cases hp : (p.1 == k) = true
    · rw [if_pos hp]
      simp [keysA]
    · rw [if_neg hp]
      rw [if_neg hp] at h
      simp [keysA] at ih ⊢
      exact ih h

theorem keysA_setA_absent {α : Type} (l : List (String × α)) (k : String)
    (v : α) (h : lookupA l k = none) :
    keysA (setA l k v) = keysA l ++ [k] := by
  induction l with
  | nil => simp [setA, keysA]
  | cons p l ih =>
    rw [lookupA_cons] at h
    simp only [setA]
    by_cases hp : (p.1 == k) = true
    · rw [if_pos hp] at h
      simp at h
    · rw [if_neg hp] at h
      rw [if_neg hp]
      simp [keysA] at ih ⊢
      exact ih h

theorem get?_isSome_of_lt {α : Type} (l : List α) (j : Nat)
    (h : j < l.length) : ∃ v, l[j]? = some v := by
  cases hg : l[j]?
  · rw [List.getElem?_eq_none_iff] at hg
    omega
  · exact ⟨_, rfl⟩

/-- The record the fresh-record branch builds: each requested column present
in the column mapping, paired with the row's value at its mapped index, in
requested-column order. -/
def specCreate (cols_to_grab : List String)
    (column_mappings : List (String × Nat)) (split_line : List String) :
    VariantAnnotations :=
  cols_to_grab.filterMap (fun c =>
    (lookupA column_mappings c).bind (fun j =>
      (split_line[j]?).map (fun v => (c, v))))

/-- The requested columns the column mapping provides, in requested order. -/
def presentCols (cols_to_grab : List String)
    (column_mappings : List (String × Nat)) : List String :=
  cols_to_grab.filter (fun c => (lookupA column_mappings c).isSome)

theorem create_fold_eq (colMap : List (String × Nat)) (split : List String) :
    ∀ (cols : List String) (acc : VariantAnnotations),
    (∀ c ∈ cols, ∀ j, lookupA colMap c = some j → j < split.length) →
    cols.foldlM (create_step colMap split) acc
      = some (acc ++ specCreate cols colMap split) := by
  intro cols
  induction cols with
  | nil =>
    intro acc h
    simp [specCreate]
  | cons c cols ih =>
    intro acc h
    rw [List.foldlM_cons]
    cases hc : lookupA colMap c with
    | none =>
      rw [show create_step colMap split acc c = some acc by
        simp [create_step, hc]]
      simp only [Option.bind_eq_bind, Option.some_bind]
      rw [ih acc (fun c' hm j hj => h c' (List.mem_cons_of_mem _ hm) j hj)]
      simp [specCreate, hc]
    | some j =>
      obtain ⟨v, hv⟩ :=
        get?_isSome_of_lt split j (h c (List.mem_cons_self _ _) j hc)
      rw [show create_step colMap split acc c = some (acc ++ [(c, v)]) by
        simp [create_step, hc, hv]]
      simp only [Option.bind_eq_bind, Option.some_bind]
      rw [ih (acc ++ [(c, v)])
        (fun c' hm j' hj => h c' (List.mem_cons_of_mem _ hm) j' hj)]
      simp [specCreate, hc, hv]

theorem create_row_cols_eq (cols : List String) (colMap : List (String × Nat))
    (split : List String)
    (h : ∀ c ∈ cols, ∀ j, lookupA colMap c = some j → j < split.length) :
    create_row_cols cols colMap split = some (specCreate cols colMap split) := by
  unfold create_row_cols
  rw [create_fold_eq colMap split cols [] h]
  simp

theorem lookupA_specCreate (colMap : List (String × Nat)) (split : List String) :
    ∀ (cols : List String) (X : String) (i : Nat) (v : String),
    X ∈ cols → lookupA colMap X = some i → split[i]? = some v →
    lookupA (specCreate cols colMap split) X = some v := by
  intro cols
  induction cols with
  | nil => simp
  | cons c cols ih =>
    intro X i v hmem hXi hv
    unfold specCreate
    rw [List.filterMap_cons]
    by_cases hcX : c = X
    · subst hcX
      rw [hXi]
      simp only [Option.some_bind, hv, Option.map_some]
      show lookupA ((c, v) :: _) c = some v
      rw [lookupA_cons]
      simp
    · have hm : X ∈ cols := by
        rcases List.mem_cons.mp hmem with h | h
        · exact absurd h.symm hcX
        · exact h
      cases ho : lookupA colMap c with
      | none =>
        simp only [ho, Option.none_bind]
        exact ih X i v hm hXi hv
      | some j =>
        cases hg : split[j]? with
        | none =>
          simp only [ho, Option.some_bind, hg, Option.map_none]
          exact ih X i v hm hXi hv
        | some w =>
          simp only [ho, Option.some_bind, hg, Option.map_some]
          show lookupA ((c, w) :: _) X = some v
          rw [lookupA_cons]
          have hb : ((c, w).1 == X) = false := by simp [hcX]
          rw [hb]
          simp only [Bool.false_eq_true, if_false]
          exact ih X i v hm hXi hv

theorem keysA_specCreate (colMap : List (String × Nat)) (split : List String) :
    ∀ (cols : List String),
    (∀ c ∈ cols, ∀ j, lookupA colMap c = some j → j < split.length) →
    keysA (specCreate cols colMap split) = presentCols cols colMap := by
  intro cols
  induction cols with
  | nil => simp [specCreate, presentCols, keysA]
  | cons c cols ih =>
    intro h
    unfold specCreate presentCols
    rw [List.filterMap_cons, List.filter_cons]
    cases hc : lookupA colMap c with
    | none =>
      simp only [Option.none_bind]
      have : ((lookupA colMap c).isSome = true) = False := by simp [hc]
      simp only [hc, Option.isSome_none, Bool.false_eq_true, if_false]
      exact ih (fun c' hm j hj => h c' (List.mem_cons_of_mem _ hm) j hj)
    | some j =>
      obtain ⟨v, hv⟩ :=
        get?_isSome_of_lt split j (h c (List.mem_cons_self _ _) j hc)
      simp only [Option.some_bind, hv, Option.map_some, hc, Option.isSome_some,
        if_true]
      show c :: keysA _ = c :: List.filter _ cols
      have := ih (fun c' hm j' hj => h c' (List.mem_cons_of_mem _ hm) j' hj)
      unfold specCreate presentCols at this
      rw [this]

theorem append_fold_spec (colMap : List (String × Nat)) (split : List String) :
    ∀ (cols : List String) (va : VariantAnnotations),
    cols.Nodup →
    (∀ c ∈ cols, ∀ j, lookupA colMap c = some j → j < split.length) →
    (∀ c ∈ cols, (lookupA colMap c).isSome = true →
        (lookupA va c).isSome = true) →
    ∃ va', cols.foldlM (append_step colMap split) va = some va'
      ∧ keysA va' = keysA va
      ∧ (∀ c, c ∉ cols → lookupA va' c = lookupA va c)
      ∧ (∀ c i v, c ∈ cols → lookupA colMap c = some i → split[i]? = some v →
           lookupA va' c = (lookupA va c).map (fun old => old ++ ";" ++ v))
      ∧ (∀ c, c ∈ cols → lookupA colMap c = none →
           lookupA va' c = lookupA va c) := by
  intro cols
  induction cols with
  | nil =>
    intro va hnd hidx hkeys
    refine ⟨va, by simp, rfl, fun c hc => rfl, ?_, ?_⟩
    · intro c i v hc
      exact absurd hc (List.not_mem_nil c)
    · intro c hc
      exact absurd hc (List.not_mem_nil c)
  | cons c0 cols ih =>
    intro va hnd hidx hkeys
    obtain ⟨hc0cols, hnd'⟩ := List.nodup_cons.mp hnd
    rw [List.foldlM_cons]
    cases hc0 : lookupA colMap c0 with
    | none =>
      rw [show append_step colMap split va c0 = some va by
        simp [append_step, hc0]]
      simp only [Option.bind_eq_bind, Option.some_bind]
      obtain ⟨va', hfold, hkeysA, hout, hmain, hnone⟩ :=
        ih va hnd' (fun c hm j hj => hidx c (List.mem_cons_of_mem _ hm) j hj)
          (fun c hm hs => hkeys c (List.mem_cons_of_mem _ hm) hs)
      refine ⟨va', hfold, hkeysA, ?_, ?_, ?_⟩
      · intro c hc
        exact hout c (fun hm => hc (List.mem_cons_of_mem _ hm))
      · intro c i v hc hci hv
        rcases List.mem_cons.mp hc with rfl | hm
        · rw [hci] at hc0
          cases hc0
        · exact hmain c i v hm hci hv
      · intro c hc hcn
        rcases List.mem_cons.mp hc with rfl | hm
        · exact hout c hc0cols
        · exact hnone c hm hcn
    | some j =>
      obtain ⟨v0, hv0⟩ :=
        get?_isSome_of_lt split j (hidx c0 (List.mem_cons_self _ _) j hc0)
      have hva : (lookupA va c0).isSome = true :=
        hkeys c0 (List.mem_cons_self _ _) (by rw [hc0]; rfl)
      obtain ⟨old, hold⟩ := Option.isSome_iff_exists.mp hva
      rw [show append_step colMap split va c0
            = some (setA va c0 (old ++ ";" ++ v0)) by
        simp [append_step, hc0, hv0, hold]]
      simp only [Option.bind_eq_bind, Option.some_bind]
      have hkeys1 : ∀ c ∈ cols, (lookupA colMap c).isSome = true →
          (lookupA (setA va c0 (old ++ ";" ++ v0)) c).isSome = true := by
        intro c hm hs
        have hne : c ≠ c0 := fun he => hc0cols (he ▸ hm)
        rw [lookupA_setA_ne va c0 _ c hne]
        exact hkeys c (List.mem_cons_of_mem _ hm) hs
      obtain ⟨va', hfold, hkeysA, hout, hmain, hnone⟩ :=
        ih (setA va c0 (old ++ ";" ++ v0)) hnd'
          (fun c hm j' hj => hidx c (List.mem_cons_of_mem _ hm) j' hj) hkeys1
      refine ⟨va', hfold, ?_, ?_, ?_, ?_⟩
      · rw [hkeysA, keysA_setA_present va c0 _ hva]
      · intro c hc
        have h1 : c ∉ cols := fun hm => hc (List.mem_cons_of_mem _ hm)
        have h2 : c ≠ c0 := fun he => hc (he ▸ List.mem_cons_self _ _)
        rw [hout c h1, lookupA_setA_ne va c0 _ c h2]
      · intro c i v hc hci hv
        rcases List.mem_cons.mp hc with rfl | hm
        · rw [hci] at hc0
          injection hc0 with hji
          subst hji
          rw [hv0] at hv
          injection hv with hvv
          subst hvv
          rw [hout c hc0cols, lookupA_setA_self, hold]
          rfl
        · have hne : c ≠ c0 := fun he => hc0cols (he ▸ hm)
          rw [hmain c i v hm hci hv, lookupA_setA_ne va c0 _ c hne]
      · intro c hc hcn
        rcases List.mem_cons.mp hc with rfl | hm
        · rw [hcn] at hc0
          cases hc0
        · have hne : c ≠ c0 := fun he => hc0cols (he ▸ hm)
          rw [hnone c hm hcn, lookupA_setA_ne va c0 _ c hne]

theorem append_row_cols_spec (cols : List String)
    (colMap : List (String × Nat)) (split : List String)
    (va : VariantAnnotations) (hnd : cols.Nodup)
    (hidx : ∀ c ∈ cols, ∀ j, lookupA colMap c = some j → j < split.length)
    (hkeys : ∀ c ∈ cols, (lookupA colMap c).isSome = true →
        (lookupA va c).isSome = true) :
    ∃ va', append_row_cols cols colMap split va = some va'
      ∧ keysA va' = keysA va
      ∧ (∀ c, c ∉ cols → lookupA va' c = lookupA va c)
      ∧ (∀ c i v, c ∈ cols → lookupA colMap c = some i → split[i]? = some v →
           lookupA va' c = (lookupA va c).map (fun old => old ++ ";" ++ v)) := by
  obtain ⟨va', h1, h2, h3, h4, h5⟩ :=
    append_fold_spec colMap split cols va hnd hidx hkeys
  exact ⟨va', h1, h2, h3, h4⟩

/-- The data rows carrying a given variant key, in source order. -/
def rowsForKey (k : String) (rows : List (List String)) : List (List String) :=
  rows.filter (fun r => r.headD "" == k)

/-- One builder update: the first row writes the bare value, every later row
appends ";" and the value. -/
def extendX : Option String → String → String
  | none, v => v
  | some o, v => o ++ ";" ++ v

/-- The accumulated builder contents for one column (mapped at index i) after
processing a sequence of rows. -/
def joinX (i : Nat) (acc : Option String) (rows : List (List String)) :
    Option String :=
  rows.foldl (fun a r => some (extendX a ((r[i]?).getD ""))) acc

/-- Well-formedness of one data row for the scan: at least two fields, the
region check retains it (directly, or through the fall-through on a
conversion error), and every mapped requested column is in range. -/
def rowOK (cols : List String) (colMap : List (String × Nat)) (region : Region)
    (r : List String) : Bool :=
  decide (2 ≤ r.length)
  && ((check_region ((r[1]?).getD "") region.start region.stop).1
      || (check_region ((r[1]?).getD "") region.start region.stop).2)
  && cols.all (fun c =>
      match lookupA colMap c with
      | none => true
      | some j => decide (j < r.length))

theorem rowOK_parts {cols : List String} {colMap : List (String × Nat)}
    {region : Region} {r : List String}
    (h : rowOK cols colMap region r = true) :
    2 ≤ r.length
    ∧ ((check_region ((r[1]?).getD "") region.start region.stop).1 = true
        ∨ (check_region ((r[1]?).getD "") region.start region.stop).2 = true)
    ∧ (∀ c ∈ cols, ∀ j, lookupA colMap c = some j → j < r.length) := by
  unfold rowOK at h
  rw [Bool.and_eq_true, Bool.and_eq_true] at h
  obtain ⟨⟨hl, hc⟩, hall⟩ := h
  refine ⟨by simpa using hl, by simpa [Bool.or_eq_true] using hc, ?_⟩
  intro c hm j hj
  have hx := List.all_eq_true.mp hall c hm
  rw [hj] at hx
  simpa using hx

theorem process_anno_line_data (cols : List String) (region : Region)
    (st : AnnoScanState) (l : String) (pos : String)
    (h1 : gocontains l "##" = false) (h2 : gocontains l "#" = false)
    (hpos : (splitRow l)[1]? = some pos)
    (hproc : (check_region pos region.start region.stop).1 = true
        ∨ (check_region pos region.start region.stop).2 = true) :
    process_anno_line cols region st l
      = match lookupA st.annos ((splitRow l).headD "") with
        | some variant_annos =>
          (append_row_cols cols st.column_mappings (splitRow l)
              variant_annos).map
            (fun va =>
              { st with annos := setA st.annos ((splitRow l).headD "") va })
        | none =>
          (create_row_cols cols st.column_mappings (splitRow l)).map
            (fun va =>
              { st with annos := setA st.annos ((splitRow l).headD "") va }) := by
  unfold process_anno_line
  rw [h1]
  simp only [Bool.false_eq_true, if_false]
  rw [h2]
  simp only [Bool.false_eq_true, if_false]
  simp only [hpos]
  have hskip : ((!(check_region pos region.start region.stop).1)
      && (!(check_region pos region.start region.stop).2)) = false := by
    rcases hproc with h | h <;> simp [h]
  rw [hskip]
  simp only [Bool.false_eq_true, if_false]

theorem joinX_cons (i : Nat) (acc : Option String) (r : List String)
    (rows : List (List String)) :
    joinX i acc (r :: rows)
      = joinX i (some (extendX acc ((r[i]?).getD ""))) rows := rfl

theorem scan_master (cols : List String) (region : Region)
    (colMap : List (String × Nat)) (hnd : cols.Nodup) :
    ∀ (lines : List String) (st : AnnoScanState),
    st.column_mappings = colMap →
    (∀ l ∈ lines, gocontains l "##" = false ∧ gocontains l "#" = false ∧
        rowOK cols colMap region (splitRow l) = true) →
    (∀ k va, lookupA st.annos k = some va →
        keysA va = presentCols cols colMap) →
    ∃ annos',
      lines.foldlM (process_anno_line cols region) st = some ⟨colMap, annos'⟩
      ∧ (∀ k va, lookupA annos' k = some va →
            keysA va = presentCols cols colMap)
      ∧ (∀ X i, X ∈ cols → lookupA colMap X = some i →
          ∀ k, (lookupA annos' k).bind (fun va => lookupA va X)
            = joinX i ((lookupA st.annos k).bind (fun va => lookupA va X))
                (rowsForKey k (lines.map splitRow))) := by
  intro lines
  induction lines with
  | nil =>
    intro st hcm hlines hinv
    refine ⟨st.annos, ?_, hinv, ?_⟩
    · show some st = some (⟨colMap, st.annos⟩ : AnnoScanState)
      rw [← hcm]
    · intro X i hX hXi k
      rfl
  | cons l lines ih =>
    intro st hcm hlines hinv
    obtain ⟨h1, h2, h3⟩ := hlines l (List.mem_cons_self _ _)
    obtain ⟨hlen, hproc0, hidx⟩ := rowOK_parts h3
    obtain ⟨pos, hpos⟩ := get?_isSome_of_lt (splitRow l) 1 (by omega)
    have hgd : ((splitRow l)[1]?).getD "" = pos := by rw [hpos]; rfl
    rw [hgd] at hproc0
    rw [List.foldlM_cons,
      process_anno_line_data cols region st l pos h1 h2 hpos hproc0]
    cases hlk : lookupA st.annos ((splitRow l).headD "") with
    | some va =>
      have hkeysva := hinv _ va hlk
      have hkeys : ∀ c ∈ cols, (lookupA colMap c).isSome = true →
          (lookupA va c).isSome = true := by
        intro c hm hs
        rw [lookupA_isSome_iff_mem, hkeysva]
        unfold presentCols
        exact List.mem_filter.mpr ⟨hm, hs⟩
      obtain ⟨va', hfold, hkeysA, hout, hmain⟩ :=
        append_row_cols_spec cols colMap (splitRow l) va hnd hidx hkeys
      simp only [hcm, hfold, Option.map_some, Option.bind_eq_bind,
        Option.some_bind]
      have hinv1 : ∀ k va2,
          lookupA (setA st.annos ((splitRow l).headD "") va') k = some va2 →
          keysA va2 = presentCols cols colMap := by
        intro k va2 hk2
        by_cases hk : k = (splitRow l).headD ""
        · subst hk
          rw [lookupA_setA_self] at hk2
          injection hk2 with hva2
          subst hva2
          rw [hkeysA, hkeysva]
        · rw [lookupA_setA_ne _ _ _ _ hk] at hk2
          exact hinv k va2 hk2
      obtain ⟨annos', hfold', hinv', hX'⟩ :=
        ih ⟨colMap, setA st.annos ((splitRow l).headD "") va'⟩
          rfl (fun l' hm => hlines l' (List.mem_cons_of_mem _ hm)) hinv1
      refine ⟨annos', hfold', hinv', ?_⟩
      intro X i hX hXi k
      rw [hX' X i hX hXi k]
      rw [show (l :: lines).map splitRow = splitRow l :: lines.map splitRow
        from rfl]
      unfold rowsForKey
      rw [List.filter_cons]
      have hx : i < (splitRow l).length := hidx X hX i hXi
      obtain ⟨v, hv⟩ := get?_isSome_of_lt (splitRow l) i hx
      cases hkk : ((splitRow l).headD "" == k) with
      | false =>
        simp only [Bool.false_eq_true, if_false]
        have hne : k ≠ (splitRow l).headD "" := by
          intro he
          rw [he, beq_self_eq_true] at hkk
          cases hkk
        rw [lookupA_setA_ne _ _ _ _ hne]
      | true =>
        have hkeq : (splitRow l).headD "" = k := by simpa using hkk
        subst hkeq
        rw [if_pos rfl, lookupA_setA_self, hlk]
        simp only [Option.some_bind]
        obtain ⟨old, hold⟩ :=
          Option.isSome_iff_exists.mp (hkeys X hX (by rw [hXi]; rfl))
        rw [hmain X i v hX hXi hv, hold, joinX_cons,
          show ((splitRow l)[i]?).getD "" = v from by rw [hv]; rfl]
        rfl
    | none =>
      have hcreate := create_row_cols_eq cols colMap (splitRow l) hidx
      simp only [hcm, hcreate, Option.map_some, Option.bind_eq_bind,
        Option.some_bind]
      have hinv1 : ∀ k va2,
          lookupA (setA st.annos ((splitRow l).headD "")
              (specCreate cols colMap (splitRow l))) k = some va2 →
          keysA va2 = presentCols cols colMap := by
        intro k va2 hk2
        by_cases hk : k = (splitRow l).headD ""
        · subst hk
          rw [lookupA_setA_self] at hk2
          injection hk2 with hva2
          subst hva2
          exact keysA_specCreate colMap (splitRow l) cols hidx
        · rw [lookupA_setA_ne _ _ _ _ hk] at hk2
          exact hinv k va2 hk2
      obtain ⟨annos', hfold', hinv', hX'⟩ :=
        ih ⟨colMap, setA st.annos ((splitRow l).headD "")
            (specCreate cols colMap (splitRow l))⟩
          rfl (fun l' hm => hlines l' (List.mem_cons_of_mem _ hm)) hinv1
      refine ⟨annos', hfold', hinv', ?_⟩
      intro X i hX hXi k
      rw [hX' X i hX hXi k]
      rw [show (l :: lines).map splitRow = splitRow l :: lines.map splitRow
        from rfl]
      unfold rowsForKey
      rw [List.filter_cons]
      have hx : i < (splitRow l).length := hidx X hX i hXi
      obtain ⟨v, hv⟩ := get?_isSome_of_lt (splitRow l) i hx
      cases hkk : ((splitRow l).headD "" == k) with
      | false =>
        simp only [Bool.false_eq_true, if_false]
        have hne : k ≠ (splitRow l).headD "" := by
          intro he
          rw [he, beq_self_eq_true] at hkk
          cases hkk
        rw [lookupA_setA_ne _ _ _ _ hne]
      | true =>
        have hkeq : (splitRow l).headD "" = k := by simpa using hkk
        subst hkeq
        rw [if_pos rfl, lookupA_setA_self, hlk]
        simp only [Option.some_bind, Option.none_bind]
        rw [lookupA_specCreate colMap (splitRow l) cols X i v hX hXi hv,
          joinX_cons,
          show ((splitRow l)[i]?).getD "" = v from by rw [hv]; rfl]
        rfl

/-- Semicolon-joined sequence of values, in order, without deduplication. -/
def joinSemi : List String → String
  | [] => ""
  | [v] => v
  | v :: w :: rest => v ++ ";" ++ joinSemi (w :: rest)

theorem joinSemi_cons_append (o v : String) (rest : List String) :
    joinSemi ((o ++ ";" ++ v) :: rest) = o ++ ";" ++ joinSemi (v :: rest) := by
  cases rest with
  | nil => rfl
  | cons w rest =>
    show (o ++ ";" ++ v) ++ ";" ++ joinSemi (w :: rest)
        = o ++ ";" ++ (v ++ ";" ++ joinSemi (w :: rest))
    simp [String.append_assoc]

theorem joinX_some_eq (i : Nat) : ∀ (rows : List (List String)) (o : String),
    joinX i (some o) rows
      = some (joinSemi (o :: rows.map (fun r => (r[i]?).getD ""))) := by
  intro rows
  induction rows with
  | nil => intro o; rfl
  | cons r rows ih =>
    intro o
    rw [joinX_cons]
    show joinX i (some (o ++ ";" ++ (r[i]?).getD "")) rows = _
    rw [ih, List.map_cons, joinSemi_cons_append]
    rfl

theorem joinX_none_eq (i : Nat) (r : List String) (rows : List (List String)) :
    joinX i none (r :: rows)
      = some (joinSemi ((r :: rows).map (fun rr => (rr[i]?).getD ""))) := by
  rw [joinX_cons]
  show joinX i (some ((r[i]?).getD "")) rows = _
  rw [joinX_some_eq, List.map_cons]

/-- C2: AnnotationStore aggregation.  Over a scan consisting of one
column-header line followed by data lines that all qualify against the region
(each with at least two fields and every mapped requested column in range),
for every variant key k and every requested column X that the header's column
mapping provides, the stored value for X is the semicolon-joined sequence of
X's values across the rows whose key is k, in source order and without
deduplication.  The claim's "two or more rows" case is the hypothesis on
rowsForKey; the instance with values "a" then "b" giving "a;b" is the
witness. -/
theorem C2_aggregation (cols : List String) (region : Region) (header : String)
    (lines : List String) (X : String) (i : Nat) (k : String)
    (hnd : cols.Nodup) (hX : X ∈ cols)
    (hh1 : gocontains header "##" = false)
    (hh2 : gocontains header "#" = true)
    (hXi : lookupA (load_column_mappings header) X = some i)
    (hlines : ∀ l ∈ lines, gocontains l "##" = false ∧
        gocontains l "#" = false ∧
        rowOK cols (load_column_mappings header) region (splitRow l) = true)
    (hkrows : 2 ≤ (rowsForKey k (lines.map splitRow)).length) :
    ∃ annos',
      (header :: lines).foldlM (process_anno_line cols region) ⟨[], []⟩
          = some ⟨load_column_mappings header, annos'⟩
      ∧ (lookupA annos' k).bind (fun va => lookupA va X)
          = some (joinSemi ((rowsForKey k (lines.map splitRow)).map
              (fun r => (r[i]?).getD ""))) := by
  have hstep : process_anno_line cols region ⟨[], []⟩ header
      = some ⟨load_column_mappings header, []⟩ := by
    unfold process_anno_line
    rw [hh1]
    simp only [Bool.false_eq_true, if_false]
    rw [hh2, if_pos rfl]
  rw [List.foldlM_cons, hstep]
  simp only [Option.bind_eq_bind, Option.some_bind]
  obtain ⟨annos', hfold, hinv, hXpart⟩ :=
    scan_master cols region (load_column_mappings header) hnd lines
      ⟨load_column_mappings header, []⟩ rfl hlines
      (by intro k' va h; simp [lookupA] at h)
  refine ⟨annos', hfold, ?_⟩
  rw [hXpart X i hX hXi k]
  rw [show (lookupA ([] : List (String × VariantAnnotations)) k) = none
    from rfl]
  simp only [Option.none_bind]
  cases hrw : rowsForKey k (lines.map splitRow) with
  | nil =>
    rw [hrw] at hkrows
    simp at hkrows
  | cons r rows => rw [joinX_none_eq]

/-- Witness for C2: two qualifying annotation rows for variant rs1 with
column X values "a" then "b" yield the stored value "a;b" for X. -/
theorem C2_aggregation_witness :
    ∃ annos',
      (["#ID\tPOS\tX", "rs1\t150\ta", "rs1\t160\tb"].foldlM
          (process_anno_line ["X"] ⟨"chr1", 100, 200⟩) ⟨[], []⟩)
          = some ⟨load_column_mappings "#ID\tPOS\tX", annos'⟩
      ∧ (lookupA annos' "rs1").bind (fun va => lookupA va "X")
          = some "a;b" := by
  obtain ⟨annos', h1, h2⟩ :=
    C2_aggregation ["X"] ⟨"chr1", 100, 200⟩ "#ID\tPOS\tX"
      ["rs1\t150\ta", "rs1\t160\tb"] "X" 2 "rs1" (by decide) (by decide)
      (by decide) (by decide) (by decide) (by decide) (by decide)
  refine ⟨annos', h1, ?_⟩
  rw [h2]
  rfl

/-- C7 (amended): after a scan under a single column-name mapping, every
stored AnnotationRecord's key set is exactly the set of requested columns that
are present in that mapping, in requested order: requested columns missing
from the annotation header are omitted from the record (contrary to the
original claim's "regardless of which columns appear in the header"), and no
other keys exist. -/
theorem C7_keys_are_present_requested_cols (cols : List String)
    (region : Region) (header : String) (lines : List String)
    (hnd : cols.Nodup)
    (hh1 : gocontains header "##" = false)
    (hh2 : gocontains header "#" = true)
    (hlines : ∀ l ∈ lines, gocontains l "##" = false ∧
        gocontains l "#" = false ∧
        rowOK cols (load_column_mappings header) region (splitRow l) = true) :
    ∃ annos',
      (header :: lines).foldlM (process_anno_line cols region) ⟨[], []⟩
          = some ⟨load_column_mappings header, annos'⟩
      ∧ ∀ k va, lookupA annos' k = some va →
          keysA va = presentCols cols (load_column_mappings header) := by
  have hstep : process_anno_line cols region ⟨[], []⟩ header
      = some ⟨load_column_mappings header, []⟩ := by
    unfold process_anno_line
    rw [hh1]
    simp only [Bool.false_eq_true, if_false]
    rw [hh2, if_pos rfl]
  rw [List.foldlM_cons, hstep]
  simp only [Option.bind_eq_bind, Option.some_bind]
  obtain ⟨annos', hfold, hinv, hXpart⟩ :=
    scan_master cols region (load_column_mappings header) hnd lines
      ⟨load_column_mappings header, []⟩ rfl hlines
      (by intro k' va h; simp [lookupA] at h)
  exact ⟨annos', hfold, hinv⟩

/-- Witness for C7's amended statement: with requested column X and a header
declaring only ID/POS/gene, every stored record's key set is the empty
requested-present intersection. -/
theorem C7_keys_witness :
    ∃ annos',
      (["#ID\tPOS\tgene", "rs1\t150\tv"].foldlM
          (process_anno_line ["X"] ⟨"chr1", 100, 200⟩) ⟨[], []⟩)
          = some ⟨load_column_mappings "#ID\tPOS\tgene", annos'⟩
      ∧ ∀ k va, lookupA annos' k = some va →
          keysA va = presentCols ["X"] (load_column_mappings "#ID\tPOS\tgene") :=
  C7_keys_are_present_requested_cols ["X"] ⟨"chr1", 100, 200⟩ "#ID\tPOS\tgene"
    ["rs1\t150\tv"] (by decide) (by decide) (by decide) (by decide)

/-- Exact value of a plain decimal literal, mant / 10 ^ exp.  This stands for
the real number a floating-point parse approximates; float32 rounding is not
modelled (no claim depends on values within rounding distance of the
threshold), and comparisons below are exact decimal comparisons. -/
structure Dec where
  mant : Nat
  exp : Nat
deriving DecidableEq, Repr

/-- a ≤ b on exact decimals. -/
def decLE (a b : Dec) : Bool :=
  decide (a.mant * 10 ^ b.exp ≤ b.mant * 10 ^ a.exp)

/-- Model of strconv.ParseFloat on the strings that can reach it here:
sign-free plain decimal literals (digits with at most one decimal point, at
least one digit).  Anything else is a parse error, as in Go. -/
def parseFloatD (s : String) : Option Dec :=
  match splitP (fun c => c = '.') s.data with
  | [ip] =>
    if !ip.isEmpty && ip.all Char.isDigit then some ⟨digitsToNat ip, 0⟩
    else none
  | [ip, fp] =>
    if (!ip.isEmpty || !fp.isEmpty) && ip.all Char.isDigit
        && fp.all Char.isDigit then
      some ⟨digitsToNat ip * 10 ^ fp.length + digitsToNat fp, fp.length⟩
    else none
  | _ => none

/-- The per-value loop of check_allele_freq (pull_variants.go:71-83): the
listed values are examined left to right; a parse failure returns
(false, error) at once; a value at or below the threshold returns (true, nil)
at once, without examining later values. -/
def afLoop (max_freq_threshold : Dec) : List String → Bool × Bool
  | [] => (false, false)
  | maf :: rest =>
    match parseFloatD maf with
    | none => (false, true)
    | some float_val =>
      if decLE float_val max_freq_threshold then (true, false)
      else afLoop max_freq_threshold rest

/-- Model of check_allele_freq (pull_variants.go:66-86).  The pair is
(retained, error non-nil).  `none` models the Go panic when the INFO column
has fewer than three semicolon-separated sub-fields: the sub-field index [2]
is read unconditionally. -/
def check_allele_freq (token : String) (max_freq_threshold : Dec) :
    Option (Bool × Bool) :=
  match (gosplit (fun c => c = ';') token)[2]? with
  | none => none
  | some maf_field =>
    let maf_values := gosplit (fun c => c = '=') maf_field
    some (afLoop max_freq_threshold (maf_values.drop 1))

/-- Model of generate_reference_set (pull_variants.go:32-42): the reference
genotype-call tokens, as the key set of the Go map. -/
def generate_reference_set : List String := ["0/0", "./.", "0/.", "./0", "."]

/-- Model of parse_genotype_calls (pull_variants.go:46-55): true iff some call
is not a key of the reference set. -/
def parse_genotype_calls (calls : List String) : Bool :=
  calls.any (fun call => !(generate_reference_set.contains call))

/-- Model of map_header_ids (pull_variants.go:57-64): sample id to its index
in the header sample list; reversal gives the Go-map last-write-wins
behaviour for duplicated ids. -/
def map_header_ids (samples : List String) : List (String × Nat) :=
  (samples.enum.map (fun p => (p.2, p.1))).reverse

/-- The per-sample loop inside process_header_ids (pull_variants.go:111-119):
append "id_score\t" for each sample in header order, stopping with an error at
the first sample absent from the phenotype map.  The partial string built so
far is kept, as in Go. -/
def sample_string_loop (pheno_map : List (String × String)) :
    List String → String → String × Bool
  | [], acc => (acc, false)
  | id :: rest, acc =>
    match lookupA pheno_map id with
    | some value => sample_string_loop pheno_map rest
        (acc ++ id ++ "_" ++ value ++ "\t")
    | none => (acc, true)

/-- Model of process_header_ids (pull_variants.go:88-132) over the lines of
the variant stream.  Returns (samples, sample_str, error, remaining lines):
lines containing "##" are skipped; the line containing "#CHROM" is the header,
whose fields from index 9 on are the samples; any other line means the header
is missing, a fatal error.  The remaining lines are what the shared scanner
still holds for the streaming stage. -/
def process_header_ids (pheno_map : List (String × String)) :
    List String → List String × String × Bool × List String
  | [] => ([], "", false, [])
  | line :: rest =>
    if gocontains line "##" then process_header_ids pheno_map rest
    else if gocontains line "#CHROM" then
      let split_header := gosplit (fun c => c = '\t') (trimSpace line)
      let samples := split_header.drop 9
      let res := sample_string_loop pheno_map samples ""
      (samples, res.1, res.2, rest)
    else ([], "", true, rest)

/-- Go struct VariantInfo (pull_variants.go:25-30); Annotations keeps the
Go nil / non-nil distinction via Option. -/
structure VariantInfo where
  VariantID : String
  InfoFields : List String
  Calls : String
  Annotations : Option VariantAnnotations
deriving DecidableEq, Repr

/-- One iteration of the parse_vcf_file loop (pull_variants.go:140-178) on a
data line.  The outer Option models a Go panic (short line: INFO index [7],
the genotype slice [9:], a sample index, or the id index [2] out of range);
the inner Option is none when the record is filtered out and some variant when
it is sent to the channel.  Records whose frequency check errors are skipped,
matching the pass && err == nil condition. -/
def parse_data_line (maf_cap : Dec)
    (annotations : List (String × VariantAnnotations)) (samples : List String)
    (sample_indices : List (String × Nat)) (line : String) :
    Option (Option VariantInfo) :=
  let split_line := splitRow line
  match split_line[7]? with
  | none => none
  | some info =>
    match check_allele_freq info maf_cap with
    | none => none
    | some res =>
      if res.1 && !res.2 then
        if split_line.length < 9 then none
        else if parse_genotype_calls (split_line.drop 9) then
          match samples.foldlM
              (fun acc sample_id =>
                (split_line[(lookupA sample_indices sample_id).getD 0 + 9]?).map
                  (fun call => acc ++ "\t" ++ call)) "" with
          | none => none
          | some call_string =>
            match split_line[2]? with
            | none => none
            | some vid =>
              some (some
                { VariantID := vid, InfoFields := split_line.take 9,
                  Calls := call_string,
                  Annotations := lookupA annotations vid })
        else some none
      else some none

/-- Model of read_in_samples' score trimming (pull_variants.go:429-434): keep
the characters up to two places after the first dot.  Go slices the score to
index dot+3 without a bounds check, so a score whose dot is nearer than two
characters to the end panics (`none`): "0.0" has length 3 but is sliced to
[0:4].  A score with no dot is kept whole. -/
def trim_score (score : String) : Option String :=
  match score.data.findIdx? (fun c => c = '.') with
  | none => some score
  | some dot_indx =>
    if dot_indx + 3 ≤ score.data.length then
      some (String.mk (score.data.take (dot_indx + 3)))
    else none

/-- Model of read_in_samples (pull_variants.go:402-444) over the lines of the
samples file: first column sample id, optional second column a score run
through trim_score.  `none` models the Go slice panic inside trim_score. -/
def read_in_samples (lines : List String) :
    Option (List (String × String)) :=
  lines.foldlM
    (fun sample_ids line =>
      let split_line := splitRow line
      if split_line.length = 1 then
        some (setA sample_ids (split_line.headD "") "")
      else
        match trim_score (split_line.getD 1 "") with
        | none => none
        | some sc => some (setA sample_ids (split_line.headD "") sc))
    []

/-- Model of generate_annotation_str (pull_variants.go:183-192): for each
requested column the record contains, append a tab and the builder contents;
columns the record lacks are silently skipped. -/
def generate_annotation_str (variant_annos : VariantAnnotations)
    (anno_cols : List String) : String :=
  anno_cols.foldl
    (fun annotation_str col =>
      match lookupA variant_annos col with
      | some value => annotation_str ++ "\t" ++ value
      | none => annotation_str) ""

/-- The header line writeToFile emits (pull_variants.go:201-211). -/
def write_header_str (samples : String) (annotation_cols : List String) :
    String :=
  "#CHROM\tPOS\tID\tREF\tALT\tQUAL\tFILTER\tINFO\tFORMAT\t" ++ samples
    ++ String.intercalate "\t" annotation_cols ++ "\n"

/-- The data line writeToFile emits for one variant
(pull_variants.go:220-239): the nine fixed fields, the call string (starting
with a tab), then one "\t-" per annotation column when the annotation is nil,
or the joined annotation string otherwise. -/
def render_variant (annotation_cols : List String) (variant : VariantInfo) :
    String :=
  let base := String.intercalate "\t" variant.InfoFields ++ variant.Calls
  match variant.Annotations with
  | none => base ++ String.join (annotation_cols.map (fun _ => "\t-")) ++ "\n"
  | some va => base ++ generate_annotation_str va annotation_cols ++ "\n"

/-- Model of writeToFile (pull_variants.go:194-253): the header line followed
by one rendered line per variant received from the channel, in order. -/
def writeToFile (samples : String) (annotation_cols : List String)
    (variants : List VariantInfo) : List String :=
  write_header_str samples annotation_cols
    :: variants.map (render_variant annotation_cols)

/-- Model of the parse_vcf_file loop (pull_variants.go:134-180) over the
remaining lines of the stream: the variants sent to the channel, in input
order.  `none` models a Go panic on some line. -/
def parse_vcf_file (maf_cap : Dec)
    (annotations : List (String × VariantAnnotations)) (samples : List String)
    (sample_indices : List (String × Nat)) (lines : List String) :
    Option (List VariantInfo) :=
  (lines.mapM (parse_data_line maf_cap annotations samples sample_indices)).map
    (fun l => l.filterMap id)

/-- Model of pull_variants (pull_variants.go:483-573) end to end over pure
inputs: region string, comma-separated keep-columns string, the lines of the
annotation file, of the samples file and of the variant stream, and the
frequency threshold.  The outer Option models a Go panic; the inner Option
models a clean abort via os.Exit before the output file has any content; on
success the result is the full list of output lines. -/
def pull_variants_run (region_str cols_to_keep : String)
    (anno_lines sample_lines vcf_lines : List String) (maf_cap : Dec) :
    Option (Option (List String)) :=
  match parse_region region_str with
  | none => none
  | some parsed =>
    if parsed.2 then some none
    else
      let anno_cols_to_keep := gosplit (fun c => c = ',') cols_to_keep
      match read_annotations anno_cols_to_keep parsed.1 anno_lines with
      | none => none
      | some none => some none
      | some (some anno_map) =>
        match read_in_samples sample_lines with
        | none => none
        | some sample_phenos =>
          let hdr := process_header_ids sample_phenos vcf_lines
          if hdr.2.2.1 then some none
          else
            let samples_indices := map_header_ids hdr.1
            match parse_vcf_file maf_cap anno_map hdr.1 samples_indices
                hdr.2.2.2 with
            | none => none
            | some variants =>
              some (some (writeToFile hdr.2.1 anno_cols_to_keep variants))

theorem afLoop_all_parse (thr : Dec) : ∀ (vs : List String),
    (∀ v ∈ vs, (parseFloatD v).isSome = true) →
    afLoop thr vs
      = (vs.any (fun v => decLE ((parseFloatD v).getD ⟨0, 0⟩) thr), false) := by
  intro vs
  induction vs with
  | nil => intro h; rfl
  | cons v vs ih =>
    intro h
    obtain ⟨x, hx⟩ :=
      Option.isSome_iff_exists.mp (h v (List.mem_cons_self _ _))
    unfold afLoop
    simp only [hx]
    by_cases hle : decLE x thr = true
    · rw [if_pos hle]
      rw [List.any_cons, hx]
      show (true, false) = (decLE x thr || _, false)
      rw [hle]
      simp
    · rw [if_neg hle]
      rw [ih (fun v' hm => h v' (List.mem_cons_of_mem _ hm))]
      rw [List.any_cons, hx]
      show (_, false) = (decLE x thr || _, false)
      rw [Bool.eq_false_iff.mpr hle]
      simp

theorem afLoop_err (thr : Dec) : ∀ (pre : List String) (bad : String)
    (rest : List String),
    (∀ v ∈ pre, (parseFloatD v).isSome = true ∧
        decLE ((parseFloatD v).getD ⟨0, 0⟩) thr = false) →
    parseFloatD bad = none →
    afLoop thr (pre ++ bad :: rest) = (false, true) := by
  intro pre
  induction pre with
  | nil =>
    intro bad rest h hbad
    rw [List.nil_append]
    unfold afLoop
    rw [hbad]
  | cons v pre ih =>
    intro bad rest h hbad
    obtain ⟨hs, hgt⟩ := h v (List.mem_cons_self _ _)
    obtain ⟨x, hx⟩ := Option.isSome_iff_exists.mp hs
    rw [List.cons_append]
    unfold afLoop
    simp only [hx]
    have hgt' : decLE x thr = false := by
      rw [hx] at hgt
      exact hgt
    rw [if_neg (by simp [hgt'] : ¬(decLE x thr = true))]
    exact ih bad rest (fun v' hm => h v' (List.mem_cons_of_mem _ hm)) hbad

/-- Counterexample to C3: for the INFO column "x;y;AF=0.05=bad" under
threshold 0.1 the listed values of the allele-frequency sub-field are "0.05"
and "bad"; "bad" does not parse as a number, yet check_allele_freq returns
(retained, no error): the first value already passes, the loop returns
immediately, "bad" is never parsed and no error is propagated — contradicting
the claim that each listed value is parsed and a parse failure is propagated
for the record. -/
theorem C3_counterexample_parse_failure_ignored :
    check_allele_freq "x;y;AF=0.05=bad" ⟨1, 1⟩ = some (true, false)
  ∧ parseFloatD "bad" = none
  ∧ (gosplit (fun c => c = '=')
        ((gosplit (fun c => c = ';') "x;y;AF=0.05=bad")[2]?.getD "")).drop 1
      = ["0.05", "bad"] := by
  refine ⟨rfl, rfl, rfl⟩

/-- C3 (amended): the allele-frequency check examines the listed values of
the third INFO sub-field left to right.  (1) When every listed value parses,
the record passes iff ANY value is ≤ the threshold, with no error.  (2) A
numeric parse failure is propagated as an error exactly when every value
before it parses and exceeds the threshold; a failure after a passing value
is never reached.  Threshold and values are exact decimals. -/
theorem C3_allele_freq_any_semantics :
    (∀ (token : String) (thr : Dec) (maf_field : String),
        (gosplit (fun c => c = ';') token)[2]? = some maf_field →
        (∀ v ∈ (gosplit (fun c => c = '=') maf_field).drop 1,
            (parseFloatD v).isSome = true) →
        check_allele_freq token thr
          = some (((gosplit (fun c => c = '=') maf_field).drop 1).any
              (fun v => decLE ((parseFloatD v).getD ⟨0, 0⟩) thr), false))
  ∧ (∀ (token : String) (thr : Dec) (maf_field : String)
        (pre : List String) (bad : String) (rest : List String),
        (gosplit (fun c => c = ';') token)[2]? = some maf_field →
        (gosplit (fun c => c = '=') maf_field).drop 1 = pre ++ bad :: rest →
        (∀ v ∈ pre, (parseFloatD v).isSome = true ∧
            decLE ((parseFloatD v).getD ⟨0, 0⟩) thr = false) →
        parseFloatD bad = none →
        check_allele_freq token thr = some (false, true)) := by
  constructor
  · intro token thr maf_field hfield hall
    unfold check_allele_freq
    simp only [hfield]
    rw [afLoop_all_parse thr _ hall]
  · intro token thr maf_field pre bad rest hfield hsplit hpre hbad
    unfold check_allele_freq
    simp only [hfield, hsplit]
    rw [afLoop_err thr pre bad rest hpre hbad]

/-- Witness for C3's amended statement: values "0.2","0.05" under threshold
0.1 pass with no error (any-semantics); values "0.5","zz" propagate the parse
failure on "zz" because no earlier value passed. -/
theorem C3_allele_freq_any_semantics_witness :
    check_allele_freq "x;y;AF=0.2=0.05" ⟨1, 1⟩ = some (true, false)
  ∧ check_allele_freq "x;y;AF=0.5=zz" ⟨1, 1⟩ = some (false, true) := by
  constructor
  · rw [C3_allele_freq_any_semantics.1 "x;y;AF=0.2=0.05" ⟨1, 1⟩ "AF=0.2=0.05"
      rfl (by decide)]
    rfl
  · exact C3_allele_freq_any_semantics.2 "x;y;AF=0.5=zz" ⟨1, 1⟩ "AF=0.5=zz"
      ["0.5"] "zz" [] rfl rfl (by decide) rfl

/-- C10: the frequency check reads the third semicolon-separated sub-field of
the INFO column unconditionally, so it is defined exactly when INFO splits
into at least three sub-fields; on a well-formed tab-delimited data line
whose INFO field has fewer sub-fields, the filter stage panics (index out of
range), so the stage is not total over well-formed lines. -/
theorem C10_info_subfield_precondition :
    (∀ (token : String) (thr : Dec),
        (check_allele_freq token thr).isSome = true
          ↔ 3 ≤ (gosplit (fun c => c = ';') token).length)
  ∧ (∀ (maf_cap : Dec) (annotations : List (String × VariantAnnotations))
        (samples : List String) (sample_indices : List (String × Nat))
        (line : String) (info : String),
        (splitRow line)[7]? = some info →
        (gosplit (fun c => c = ';') info).length < 3 →
        parse_data_line maf_cap annotations samples sample_indices line
          = none) := by
  constructor
  · intro token thr
    unfold check_allele_freq
    cases hg : (gosplit (fun c => c = ';') token)[2]? with
    | none =>
      rw [List.getElem?_eq_none_iff] at hg
      simp
      omega
    | some f =>
      have hlt : 2 < (gosplit (fun c => c = ';') token).length := by
        by_contra hc
        rw [List.getElem?_eq_none_iff.mpr (by omega)] at hg
        simp at hg
      simp
      omega
  · intro maf_cap annotations samples sample_indices line info hinfo hlen
    have hnone : check_allele_freq info maf_cap = none := by
      unfold check_allele_freq
      rw [List.getElem?_eq_none_iff.mpr (by omega)]
    unfold parse_data_line
    simp only [hinfo, hnone]

/-- Witness for C10: the INFO field "AF=0.01" has a single sub-field, so the
check panics there, while a three-sub-field INFO is accepted; a full data
line with that short INFO makes parse_data_line panic. -/
theorem C10_info_subfield_precondition_witness :
    ((check_allele_freq "AF=0.01" ⟨1, 1⟩).isSome = true
      ↔ 3 ≤ (gosplit (fun c => c = ';') "AF=0.01").length)
  ∧ check_allele_freq "AF=0.01" ⟨1, 1⟩ = none
  ∧ ((check_allele_freq "x;y;AF=0.01" ⟨1, 1⟩).isSome = true
      ↔ 3 ≤ (gosplit (fun c => c = ';') "x;y;AF=0.01").length)
  ∧ parse_data_line ⟨1, 1⟩ [] ["A"] [("A", 0)]
      "c\t1\tid\tA\tG\t.\tP\tAF=0.01\tGT\t0/1" = none := by
  refine ⟨C10_info_subfield_precondition.1 "AF=0.01" ⟨1, 1⟩, rfl,
    C10_info_subfield_precondition.1 "x;y;AF=0.01" ⟨1, 1⟩, ?_⟩
  exact C10_info_subfield_precondition.2 ⟨1, 1⟩ [] ["A"] [("A", 0)]
    "c\t1\tid\tA\tG\t.\tP\tAF=0.01\tGT\t0/1" "AF=0.01" rfl (by decide)

theorem sample_string_loop_err (pheno_map : List (String × String)) :
    ∀ (ids : List String) (acc : String) (sid : String),
    sid ∈ ids → lookupA pheno_map sid = none →
    (sample_string_loop pheno_map ids acc).2 = true := by
  intro ids
  induction ids with
  | nil => simp
  | cons id ids ih =>
    intro acc sid hm hmiss
    unfold sample_string_loop
    cases hl : lookupA pheno_map id with
    | none => rfl
    | some v =>
      rcases List.mem_cons.mp hm with rfl | hm'
      · rw [hl] at hmiss
        cases hmiss
      · simp only [hl]
        exact ih _ sid hm' hmiss

theorem process_header_ids_err (pheno_map : List (String × String)) :
    ∀ (lines : List String) (sid : String),
    sid ∈ (process_header_ids pheno_map lines).1 →
    lookupA pheno_map sid = none →
    (process_header_ids pheno_map lines).2.2.1 = true := by
  intro lines
  induction lines with
  | nil =>
    intro sid h
    simp [process_header_ids] at h
  | cons line rest ih =>
    intro sid hm hmiss
    unfold process_header_ids at hm ⊢
    by_cases h1 : gocontains line "##" = true
    · rw [if_pos h1] at hm ⊢
      exact ih sid hm hmiss
    · rw [if_neg h1] at hm ⊢
      by_cases h2 : gocontains line "#CHROM" = true
      · rw [if_pos h2] at hm ⊢
        exact sample_string_loop_err pheno_map _ "" sid hm hmiss
      · rw [if_neg h2] at hm
        simp at hm

/-- C4: whenever the variant-stream header lists a sample id that has no
entry in the phenotype mapping, the header reconciliation reports a fatal
error and the run aborts with no output file content (the abort value
some none): no variant record is processed and zero output rows are
written. -/
theorem C4_missing_sample_aborts (region_str cols_to_keep : String)
    (anno_lines sample_lines vcf_lines : List String) (maf_cap : Dec)
    (parsed : Region × Bool) (anno_map : List (String × VariantAnnotations))
    (sample_phenos : List (String × String)) (sid : String)
    (hreg : parse_region region_str = some parsed)
    (hreg2 : parsed.2 = false)
    (hanno : read_annotations (gosplit (fun c => c = ',') cols_to_keep)
        parsed.1 anno_lines = some (some anno_map))
    (hsam : read_in_samples sample_lines = some sample_phenos)
    (hsid : sid ∈ (process_header_ids sample_phenos vcf_lines).1)
    (hmiss : lookupA sample_phenos sid = none) :
    pull_variants_run region_str cols_to_keep anno_lines sample_lines
        vcf_lines maf_cap = some none := by
  have herr := process_header_ids_err sample_phenos vcf_lines sid hsid hmiss
  unfold pull_variants_run
  simp only [hreg, hreg2, hanno, hsam, Bool.false_eq_true, if_false]
  rw [if_pos herr]

/-- Witness for C4: the stream header lists samples A and S3 while the
phenotype file only covers A; the run aborts with no output content. -/
theorem C4_missing_sample_aborts_witness :
    pull_variants_run "chr1:100-200" "X"
        ["#ID\tPOS\tX", "rs9\t150\tv"] ["A\t1"]
        ["##m",
         "#CHROM\tPOS\tID\tREF\tALT\tQUAL\tFILTER\tINFO\tFORMAT\tA\tS3"]
        ⟨1, 1⟩
      = some none :=
  C4_missing_sample_aborts "chr1:100-200" "X"
    ["#ID\tPOS\tX", "rs9\t150\tv"] ["A\t1"]
    ["##m", "#CHROM\tPOS\tID\tREF\tALT\tQUAL\tFILTER\tINFO\tFORMAT\tA\tS3"]
    ⟨1, 1⟩ (⟨"chr1", 100, 200⟩, false) [("rs9", [("X", "v")])] [("A", "1")]
    "S3" rfl rfl rfl rfl (by decide) rfl

/-- Counterexample to C5: on the claim's own inputs (phenotype mapping
{A:1.23, B:0.0, C:case}, one variant row with frequency 0.05 under threshold
0.1, calls 0/1,0/0,1/1, no matching annotation) the run produces NO output at
all: read_in_samples slices the score "0.0" to [0:4], past its end — a
panic — so no data row and no decorated header are ever written.  Moreover
the claimed decoration A_1.2 is wrong even where trimming is defined: the
code keeps two characters after the dot, so "1.23" stays "1.23". -/
theorem C5_counterexample_phenotype_panic :
    pull_variants_run "chr1:100-200" "gene,impact"
        ["##anno", "#ID\tPOS\tgene\timpact", "rs99\t150\tG1\tHIGH"]
        ["A\t1.23", "B\t0.0", "C\tcase"]
        ["##meta",
         "#CHROM\tPOS\tID\tREF\tALT\tQUAL\tFILTER\tINFO\tFORMAT\tA\tB\tC",
         "chr1\t150\trs42\tA\tG\t.\tPASS\tx;y;AF=0.05\tGT\t0/1\t0/0\t1/1"]
        ⟨1, 1⟩
      = none
  ∧ trim_score "0.0" = none
  ∧ trim_score "1.23" = some "1.23" := by
  refine ⟨rfl, rfl, rfl⟩

/-- C5 (amended): with phenotype scores whose trimming stays in range
({A:1.23, B:0.05, C:case} — the original B:0.0 panics, see the
counterexample), a 3-sample header, one variant row with frequency 0.05 under
threshold 0.1, calls 0/1,0/0,1/1 and no matching annotation, the output is
exactly one header line with the samples decorated in header order as
A_1.23, B_0.05, C_case (dot plus two characters, not one decimal place)
followed by exactly one data row whose genotype columns are in header order
and whose two requested annotation columns are both the placeholder "-". -/
theorem C5_end_to_end_amended :
    pull_variants_run "chr1:100-200" "gene,impact"
        ["##anno", "#ID\tPOS\tgene\timpact", "rs99\t150\tG1\tHIGH"]
        ["A\t1.23", "B\t0.05", "C\tcase"]
        ["##meta",
         "#CHROM\tPOS\tID\tREF\tALT\tQUAL\tFILTER\tINFO\tFORMAT\tA\tB\tC",
         "chr1\t150\trs42\tA\tG\t.\tPASS\tx;y;AF=0.05\tGT\t0/1\t0/0\t1/1"]
        ⟨1, 1⟩
      = some (some
        ["#CHROM\tPOS\tID\tREF\tALT\tQUAL\tFILTER\tINFO\tFORMAT\tA_1.23\tB_0.05\tC_case\tgene\timpact\n",
         "chr1\t150\trs42\tA\tG\t.\tPASS\tx;y;AF=0.05\tGT\t0/1\t0/0\t1/1\t-\t-\n"]) := by
  rfl

/-- The configuration shared by the two pipeline stages (the arguments
pull_variants passes to parse_vcf_file and writeToFile). -/
structure PipeCfg where
  maf_cap : Dec
  annotations : List (String × VariantAnnotations)
  samples : List String
  sample_indices : List (String × Nat)
  annotation_cols : List String

/-- What the producer does with one line: skip it or emit a variant
(`none` = panic). -/
def emitOf (cfg : PipeCfg) (line : String) : Option (Option VariantInfo) :=
  parse_data_line cfg.maf_cap cfg.annotations cfg.samples cfg.sample_indices
    line

/-- State of the two-goroutine pipeline (pull_variants.go:550-564): the
producer's remaining input lines, the rendezvous channel (at most one
in-flight VariantInfo), whether the producer has closed the channel, the
lines written so far by the consumer, and whether the consumer has
returned. -/
structure PipeState where
  input : List String
  chan : Option VariantInfo
  closed : Bool
  written : List String
  done : Bool
deriving DecidableEq, Repr

/-- Interleaving semantics of the producer (parse_vcf_file) and the consumer
(writeToFile) connected by the single unbuffered channel.  A send is enabled
only when the channel is free (rendezvous backpressure); skipping a filtered
line needs no channel access; the producer closes the channel after its last
line; the consumer either receives the in-flight variant, appending its
rendered output line, or returns once the channel is closed and drained.  A
line on which parse_data_line panics has no transition: the pipeline cannot
move past it. -/
inductive PipeStep (cfg : PipeCfg) : PipeState → PipeState → Prop
  | emit (line : String) (rest : List String) (v : VariantInfo)
      (w : List String) (d : Bool) :
      emitOf cfg line = some (some v) →
      PipeStep cfg ⟨line :: rest, none, false, w, d⟩
        ⟨rest, some v, false, w, d⟩
  | skip (line : String) (rest : List String) (ch : Option VariantInfo)
      (w : List String) (d : Bool) :
      emitOf cfg line = some none →
      PipeStep cfg ⟨line :: rest, ch, false, w, d⟩ ⟨rest, ch, false, w, d⟩
  | close (ch : Option VariantInfo) (w : List String) (d : Bool) :
      PipeStep cfg ⟨[], ch, false, w, d⟩ ⟨[], ch, true, w, d⟩
  | recv (inp : List String) (v : VariantInfo) (c : Bool) (w : List String)
      (d : Bool) :
      PipeStep cfg ⟨inp, some v, c, w, d⟩
        ⟨inp, none, c, w ++ [render_variant cfg.annotation_cols v], d⟩
  | finish (inp : List String) (w : List String) :
      PipeStep cfg ⟨inp, none, true, w, false⟩ ⟨inp, none, true, w, true⟩

/-- The output lines the retained variants of a line list produce, in input
order. -/
def pendingOut (cfg : PipeCfg) (lines : List String) : List String :=
  (lines.filterMap (fun l => (emitOf cfg l).getD none)).map
    (render_variant cfg.annotation_cols)

/-- The output line an in-flight channel value will produce. -/
def chanOut (cfg : PipeCfg) : Option VariantInfo → List String
  | none => []
  | some v => [render_variant cfg.annotation_cols v]

/-- The lines already written, plus everything still in flight. -/
def pipeObs (cfg : PipeCfg) (s : PipeState) : List String :=
  s.written ++ chanOut cfg s.chan ++ pendingOut cfg s.input

/-- Execution invariant of the pipeline: the written-plus-in-flight output is
constant, the channel is only closed after the input is drained, and the
consumer only returns after close with an empty channel. -/
def PipeInv (cfg : PipeCfg) (init_lines : List String) (s : PipeState) :
    Prop :=
  pipeObs cfg s = pendingOut cfg init_lines
  ∧ (s.closed = true → s.input = [])
  ∧ (s.done = true → s.closed = true ∧ s.chan = none)

theorem pendingOut_cons_some (cfg : PipeCfg) {line : String}
    {v : VariantInfo} (rest : List String)
    (hp : emitOf cfg line = some (some v)) :
    pendingOut cfg (line :: rest)
      = render_variant cfg.annotation_cols v :: pendingOut cfg rest := by
  unfold pendingOut
  rw [List.filterMap_cons]
  simp [hp]

theorem pendingOut_cons_none (cfg : PipeCfg) {line : String}
    (rest : List String) (hp : emitOf cfg line = some none) :
    pendingOut cfg (line :: rest) = pendingOut cfg rest := by
  unfold pendingOut
  rw [List.filterMap_cons]
  simp [hp]

theorem pipeInv_step (cfg : PipeCfg) (init_lines : List String)
    {s s' : PipeState} (hstep : PipeStep cfg s s')
    (hinv : PipeInv cfg init_lines s) : PipeInv cfg init_lines s' := by
  obtain ⟨hobs, hcl, hdn⟩ := hinv
  cases hstep with
  | emit line rest v w d hp =>
    refine ⟨?_, by simp, ?_⟩
    · rw [← hobs]
      unfold pipeObs chanOut
      simp only
      rw [pendingOut_cons_some cfg rest hp]
      simp
    · intro hd
      simp only at hd
      obtain ⟨hc, _⟩ := hdn hd
      simp only at hc
      cases hc
  | skip line rest ch w d hp =>
    refine ⟨?_, by simp, ?_⟩
    · rw [← hobs]
      unfold pipeObs
      simp only
      rw [pendingOut_cons_none cfg rest hp]
    · intro hd
      simp only at hd
      obtain ⟨hc, _⟩ := hdn hd
      simp only at hc
      cases hc
  | close ch w d =>
    refine ⟨?_, fun _ => rfl, ?_⟩
    · rw [← hobs]
      unfold pipeObs
      simp only
    · intro hd
      simp only at hd
      obtain ⟨hc, _⟩ := hdn hd
      simp only at hc
      cases hc
  | recv inp v c w d =>
    refine ⟨?_, ?_, ?_⟩
    · rw [← hobs]
      unfold pipeObs chanOut
      simp
    · intro hc
      simp only at hc
      exact hcl hc
    · intro hd
      simp only at hd
      obtain ⟨_, hch⟩ := hdn hd
      simp only at hch
      cases hch
  | finish inp w =>
    refine ⟨?_, fun _ => hcl rfl, fun _ => ⟨rfl, rfl⟩⟩
    · rw [← hobs]
      unfold pipeObs
      simp only

theorem pipeInv_rtg (cfg : PipeCfg) (init_lines : List String)
    {a b : PipeState} (h : Relation.ReflTransGen (PipeStep cfg) a b)
    (ha : PipeInv cfg init_lines a) : PipeInv cfg init_lines b := by
  induction h with
  | refl => exact ha
  | tail h1 h2 ih => exact pipeInv_step cfg init_lines h2 ih

theorem pipeline_run (cfg : PipeCfg) : ∀ (lines : List String)
    (w : List String),
    (∀ l ∈ lines, (emitOf cfg l).isSome = true) →
    Relation.ReflTransGen (PipeStep cfg) ⟨lines, none, false, w, false⟩
      ⟨[], none, true, w ++ pendingOut cfg lines, true⟩ := by
  intro lines
  induction lines with
  | nil =>
    intro w h
    rw [show w ++ pendingOut cfg [] = w from by simp [pendingOut]]
    exact Relation.ReflTransGen.head (PipeStep.close none w false)
      (Relation.ReflTransGen.head (PipeStep.finish [] w)
        Relation.ReflTransGen.refl)
  | cons line rest ih =>
    intro w h
    obtain ⟨o, ho⟩ :=
      Option.isSome_iff_exists.mp (h line (List.mem_cons_self _ _))
    cases o with
    | some v =>
      have hchain := ih (w ++ [render_variant cfg.annotation_cols v])
        (fun l hm => h l (List.mem_cons_of_mem _ hm))
      rw [show (w ++ [render_variant cfg.annotation_cols v])
            ++ pendingOut cfg rest
          = w ++ pendingOut cfg (line :: rest) from by
        rw [pendingOut_cons_some cfg rest ho]
        simp] at hchain
      exact Relation.ReflTransGen.head
        (PipeStep.emit line rest v w false ho)
        (Relation.ReflTransGen.head (PipeStep.recv rest v false w false)
          hchain)
    | none =>
      have hchain := ih w (fun l hm => h l (List.mem_cons_of_mem _ hm))
      rw [show w ++ pendingOut cfg rest = w ++ pendingOut cfg (line :: rest)
        from by rw [pendingOut_cons_none cfg rest ho]] at hchain
      exact Relation.ReflTransGen.head
        (PipeStep.skip line rest none w false ho) hchain

theorem parse_vcf_file_total (cfg : PipeCfg) : ∀ (lines : List String),
    (∀ l ∈ lines, (emitOf cfg l).isSome = true) →
    parse_vcf_file cfg.maf_cap cfg.annotations cfg.samples cfg.sample_indices
        lines
      = some (lines.filterMap (fun l => (emitOf cfg l).getD none)) := by
  intro lines
  induction lines with
  | nil => intro h; rfl
  | cons l lines ih =>
    intro h
    obtain ⟨o, ho⟩ := Option.isSome_iff_exists.mp (h l (List.mem_cons_self _ _))
    have ih' := ih (fun l' hm => h l' (List.mem_cons_of_mem _ hm))
    unfold parse_vcf_file at ih' ⊢
    cases hm : lines.mapM
        (parse_data_line cfg.maf_cap cfg.annotations cfg.samples
          cfg.sample_indices) with
    | none =>
      rw [hm] at ih'
      simp at ih'
    | some bs =>
      rw [hm] at ih'
      simp at ih'
      rw [List.mapM_cons]
      have ho' : parse_data_line cfg.maf_cap cfg.annotations cfg.samples
          cfg.sample_indices l = some o := ho
      rw [ho', hm]
      simp only [Option.bind_eq_bind, Option.some_bind, Option.map_some]
      rw [List.filterMap_cons]
      cases o with
      | none =>
        rw [show (emitOf cfg l).getD none = none from by rw [ho]; rfl]
        simp [ih']
      | some v =>
        rw [show (emitOf cfg l).getD none = some v from by rw [ho]; rfl]
        simp [ih']

/-- C9: FIFO order preservation of the two-stage pipeline.  For any input
whose remaining lines all process without panic and which retains at least
two variants: (1) the producer emits exactly the retained variants in input
order (parse_vcf_file); (2) some complete interleaved execution of the
producer/consumer state machine exists; and (3) EVERY execution that reaches
a terminal state (consumer returned) has written exactly the rendered
retained variants in input order — the channel between the two parties never
reorders records. -/
theorem C9_pipeline_fifo_order (cfg : PipeCfg) (lines : List String)
    (hall : ∀ l ∈ lines, (emitOf cfg l).isSome = true)
    (htwo : 2 ≤ (lines.filterMap (fun l => (emitOf cfg l).getD none)).length) :
    parse_vcf_file cfg.maf_cap cfg.annotations cfg.samples cfg.sample_indices
        lines
      = some (lines.filterMap (fun l => (emitOf cfg l).getD none))
  ∧ (∃ s, Relation.ReflTransGen (PipeStep cfg)
        ⟨lines, none, false, [], false⟩ s
      ∧ s.done = true ∧ s.written = pendingOut cfg lines)
  ∧ (∀ s, Relation.ReflTransGen (PipeStep cfg)
        ⟨lines, none, false, [], false⟩ s → s.done = true →
      s.written = pendingOut cfg lines) := by
  refine ⟨parse_vcf_file_total cfg lines hall, ?_, ?_⟩
  · refine ⟨⟨[], none, true, pendingOut cfg lines, true⟩, ?_, rfl, rfl⟩
    have := pipeline_run cfg lines [] hall
    simpa using this
  · intro s hreach hdone
    have hinv0 : PipeInv cfg lines ⟨lines, none, false, [], false⟩ := by
      refine ⟨?_, by simp, by simp⟩
      unfold pipeObs chanOut
      simp
    obtain ⟨hobs, hcl, hdn⟩ := pipeInv_rtg cfg lines hreach hinv0
    obtain ⟨hc, hch⟩ := hdn hdone
    rw [← hobs]
    unfold pipeObs
    rw [hch, hcl hc]
    simp [pendingOut, chanOut]

/-- Witness for C9: a concrete two-variant stream; a complete execution of
the interleaved pipeline exists and ends with the two rendered rows in input
order. -/
theorem C9_pipeline_fifo_order_witness :
    ∃ s, Relation.ReflTransGen
        (PipeStep ⟨⟨1, 1⟩, [], ["A"], [("A", 0)], ["gene"]⟩)
        ⟨["c\t1\trs1\tA\tG\t.\tP\tx;y;AF=0.05\tGT\t0/1",
          "c\t2\trs2\tA\tG\t.\tP\tx;y;AF=0.05\tGT\t1/1"],
         none, false, [], false⟩ s
      ∧ s.done = true
      ∧ s.written = pendingOut ⟨⟨1, 1⟩, [], ["A"], [("A", 0)], ["gene"]⟩
          ["c\t1\trs1\tA\tG\t.\tP\tx;y;AF=0.05\tGT\t0/1",
           "c\t2\trs2\tA\tG\t.\tP\tx;y;AF=0.05\tGT\t1/1"] :=
  (C9_pipeline_fifo_order ⟨⟨1, 1⟩, [], ["A"], [("A", 0)], ["gene"]⟩
    ["c\t1\trs1\tA\tG\t.\tP\tx;y;AF=0.05\tGT\t0/1",
     "c\t2\trs2\tA\tG\t.\tP\tx;y;AF=0.05\tGT\t1/1"]
    (by decide) (by decide)).2.1
